import Mathlib

/-!
Shallow embedding of the movie-bot repository's typed external-record
synchronization logic, together with theorems settling the spec's testable
properties against it.

Embedded source files:
* `add-new-row.py` — env-name derivation, database lookup, upsert
  (`find_existing_page`, `format_property_value`, `create_or_update_page`);
* `property-text-enricher.py` / `photo-enricher.py` — the field reader
  (`get_property_value`, textually identical in both files) and
  `get_database_by_name`;
* `update-ranking.py` — `sort_and_assign_rankings`, `update_notion_rankings`;
* `movie-bot.py` — `fetch_movie_details` and the details-update loop body.

Python `None`/absence is modelled with `Option`; machine floats are modelled
as `ℚ` (the scripts only compare and copy numeric values, no rounding
arithmetic occurs); Python dicts that the scripts build in insertion order are
modelled as association lists.
-/

namespace MovieBot

/-- A JSON-shaped Python value, as produced by `json.loads` on the AI
response: strings, ints, floats, booleans, lists and null.  Ints and floats
are kept apart because Python's `str()` renders them differently
(`str(1) = "1"` vs `str(1.0) = "1.0"`). -/
inductive Value
  | str (s : String)
  | int (z : ℤ)
  | float (q : ℚ)
  | bool (b : Bool)
  | list (vs : List Value)
  | null

/-- Digits of the fractional part of `r / d` by long division, with fuel.
Used to model Python's `str()` on floats whose decimal expansion is finite. -/
def fracDigits : Nat → Nat → Nat → List Char
  | 0, _, _ => []
  | _ + 1, 0, _ => []
  | fuel + 1, r, d => Char.ofNat (48 + (r * 10) / d) :: fracDigits fuel ((r * 10) % d) d

/-- Decimal rendering of a rational, modelling Python's `str()` on a float
holding that value exactly (e.g. `str(3.0) = "3.0"`, `str(3.5) = "3.5"`). -/
def floatStr (q : ℚ) : String :=
  let sign := if q < 0 then "-" else ""
  let n := q.num.natAbs
  let d := q.den
  let fracPart := if n % d = 0 then "0" else String.mk (fracDigits 17 (n % d) d)
  sign ++ toString (n / d) ++ "." ++ fracPart

mutual

/-- Python `repr()` on a JSON-shaped value (used by `str()` on a list's
elements).  String escaping minutiae inside `repr` of a string are not
modelled; no theorem depends on them. -/
def pyRepr : Value → String
  | .str s => "'" ++ s ++ "'"
  | .int z => toString z
  | .float q => floatStr q
  | .bool true => "True"
  | .bool false => "False"
  | .null => "None"
  | .list vs => "[" ++ pyReprListBody vs ++ "]"

/-- Comma-separated reprs of a list's elements. -/
def pyReprListBody : List Value → String
  | [] => ""
  | [v] => pyRepr v
  | v :: rest => pyRepr v ++ ", " ++ pyReprListBody rest

end

/-- Python `str()` on a JSON-shaped value. -/
def pyStr : Value → String
  | .str s => s
  | .int z => toString z
  | .float q => floatStr q
  | .bool true => "True"
  | .bool false => "False"
  | .null => "None"
  | .list vs => "[" ++ pyReprListBody vs ++ "]"

/-- Python `str.lower()` (the scripts only feed it ASCII type names and
titles; character-wise `Char.toLower` matches it there).  Defined through the
character list so that proofs can evaluate it. -/
def strLower (s : String) : String := ⟨s.data.map Char.toLower⟩

/-- Python `str.upper()`, character-wise, as for `strLower`. -/
def strUpper (s : String) : String := ⟨s.data.map Char.toUpper⟩

/-- Numeric value of a list of decimal digit characters. -/
def digitsVal (cs : List Char) : ℕ := cs.foldl (fun n c => n * 10 + (c.toNat - 48)) 0

/-- Parse an unsigned Python float literal (digits, optional point, optional
exponent), the grammar accepted by Python's `float()` on ordinary decimal
strings.  (`inf`/`nan` and underscore separators are not modelled; no theorem
depends on them.) -/
def parseDecimal (cs : List Char) : Option ℚ :=
  let intPart := cs.takeWhile Char.isDigit
  let rest1 := cs.dropWhile Char.isDigit
  let fracPart :=
    match rest1 with
    | '.' :: r => r.takeWhile Char.isDigit
    | _ => []
  let rest2 :=
    match rest1 with
    | '.' :: r => r.dropWhile Char.isDigit
    | _ => rest1
  if intPart.isEmpty ∧ fracPart.isEmpty then none
  else
    let mantissa : ℚ := (digitsVal intPart : ℚ) + (digitsVal fracPart : ℚ) / ((10 : ℚ) ^ fracPart.length)
    match rest2 with
    | [] => some mantissa
    | e :: r =>
      if e = 'e' ∨ e = 'E' then
        let esign : ℤ := match r with
          | '-' :: _ => -1
          | _ => 1
        let r2 := match r with
          | '+' :: t => t
          | '-' :: t => t
          | t => t
        let eDigits := r2.takeWhile Char.isDigit
        let r3 := r2.dropWhile Char.isDigit
        if eDigits.isEmpty ∨ ¬r3.isEmpty then none
        else some (mantissa * (10 : ℚ) ^ (esign * (digitsVal eDigits : ℤ)))
      else none

/-- Python `float(s)` on a string: strip surrounding spaces, optional sign,
then a decimal literal; `None` models a raised `ValueError`. -/
def pyFloatOfString (s : String) : Option ℚ :=
  let cs := ((s.toList.dropWhile (· = ' ')).reverse.dropWhile (· = ' ')).reverse
  match cs with
  | '+' :: r => parseDecimal r
  | '-' :: r => (parseDecimal r).map Neg.neg
  | r => parseDecimal r

/-- Python `float(value)` coercion as used by the `number` branch of
`format_property_value`; `none` models the `ValueError`/`TypeError` caught
there. -/
def pyFloat : Value → Option ℚ
  | .str s => pyFloatOfString s
  | .int z => some (z : ℚ)
  | .float q => some q
  | .bool b => some (if b then 1 else 0)
  | .list _ => none
  | .null => none

/-- The wire representation `format_property_value` produces for each
supported Notion property type (`add-new-row.py` lines 178–237): a text-like
payload carries the single text run's content, the rest carry the coerced
value. -/
inductive Formatted
  | title (content : String)
  | rich_text (content : String)
  | number (q : ℚ)
  | checkbox (b : Bool)
  | select (tagName : String)
  | multi_select (tagNames : List String)
  | url (s : String)
  | email (s : String)
  | phone_number (s : String)
deriving DecidableEq, Repr

/-- Embedding of `format_property_value` (`add-new-row.py` lines 178–237):
dispatch on the declared property type, coercing the value; `none` models the
Python `None` return (the "cannot convert"/"unsupported type" skip paths). -/
def format_property_value (value : Value) (prop_type : String) : Option Formatted :=
  if prop_type = "title" then some (.title (pyStr value))
  else if prop_type = "rich_text" then some (.rich_text (pyStr value))
  else if prop_type = "number" then (pyFloat value).map .number
  else if prop_type = "checkbox" then
    match value with
    | .bool b => some (.checkbox b)
    | v =>
      if strLower (pyStr v) ∈ ["true", "yes", "1"] then some (.checkbox true)
      else if strLower (pyStr v) ∈ ["false", "no", "0"] then some (.checkbox false)
      else none
  else if prop_type = "select" then some (.select (pyStr value))
  else if prop_type = "multi_select" then
    match value with
    | .list vs => some (.multi_select (vs.map pyStr))
    | v => some (.multi_select [pyStr v])
  else if prop_type = "url" then some (.url (pyStr value))
  else if prop_type = "email" then some (.email (pyStr value))
  else if prop_type = "phone_number" then some (.phone_number (pyStr value))
  else none

/-- One run of a Notion rich-text/title payload as read back from the API;
`plain_text = none` models a run object lacking the `plain_text` key (the
reader defaults it to `""`). -/
structure RichRun where
  plain_text : Option String
deriving DecidableEq, Repr

/-- Payload of a formula-typed property: the formula sub-kind tag together
with its value; an inner `none` models JSON `null`. -/
inductive FormulaData
  | fstring (s : Option String)
  | fnumber (q : Option ℚ)
  | fboolean (b : Option Bool)
  | fdate (d : Option (Option String))
  | fother (kind : String)
deriving DecidableEq, Repr

/-- A stored Notion property value as returned by the API, tagged by its
declared type; `other t` covers every declared type the scripts never read
structurally (files, date, relation, …). -/
inductive NotionProp
  | title (runs : List RichRun)
  | rich_text (runs : List RichRun)
  | plain_text (s : Option String)
  | formula (d : FormulaData)
  | number (q : Option ℚ)
  | checkbox (b : Bool)
  | select (tagName : String)
  | multi_select (tagNames : List String)
  | url (s : String)
  | email (s : String)
  | phone_number (s : String)
  | other (typeName : String)
deriving DecidableEq, Repr

/-- Python `page_properties.get(property_name, {})` over the properties
mapping, modelled as association-list lookup. -/
def lookupProp (props : List (String × NotionProp)) (propName : String) : Option NotionProp :=
  match props with
  | [] => none
  | (k, v) :: rest => if k = propName then some v else lookupProp rest propName

/-- The type-dispatch body of `get_property_value` on the property found in
the mapping (`property-text-enricher.py` lines 245–275): the `if prop_type ==
...` chain, falling through to `None` for every other declared type or
formula sub-kind. -/
def readPropText (p : NotionProp) : Option String :=
  match p with
  | .title runs =>
    match runs with
    | [] => none
    | r :: _ => some (r.plain_text.getD "")
  | .rich_text runs =>
    match runs with
    | [] => none
    | r :: _ => some (r.plain_text.getD "")
  | .plain_text s => some (s.getD "")
  | .formula d =>
    match d with
    | .fstring s => s
    | .fnumber q =>
      match q with
      | none => some ""
      | some x => some (floatStr x)
    | .fboolean b =>
      match b with
      | none => some ""
      | some true => some "True"
      | some false => some "False"
    | .fdate d =>
      match d with
      | none => none
      | some s => some (s.getD "")
    | .fother _ => none
  | _ => none

/-- Embedding of `get_property_value` (`property-text-enricher.py` lines
242–275; `photo-enricher.py` lines 124–157 is textually identical): extract a
plain string from a typed property, `none` for a missing property, an empty
text-run list, an unsupported declared type, or an unknown formula sub-kind.
The function is total by construction, matching the Python body, which only
uses guarded indexing and defaulted `.get` lookups. -/
def get_property_value (page_properties : List (String × NotionProp)) (property_name : String) : Option String :=
  match lookupProp page_properties property_name with
  | none => none
  | some p => readPropText p

/-- Modelled from the spec: the remote store is not part of the repository,
and §4.1/§8 round-trip a written value through it.  The store reflects a
written wire value back as a stored property of the same declared type, with
a written text run's `content` echoed as the run's `plain_text`. -/
def echo : Formatted → NotionProp
  | .title c => .title [⟨some c⟩]
  | .rich_text c => .rich_text [⟨some c⟩]
  | .number q => .number (some q)
  | .checkbox b => .checkbox b
  | .select n => .select n
  | .multi_select ns => .multi_select ns
  | .url s => .url s
  | .email s => .email s
  | .phone_number s => .phone_number s

/-- One record of the ranking script (`update-ranking.py`): the dict built by
`fetch_movie_data` (`page_id`, `name`, `current_ranking`) together with the
`new_ranking` slot that `sort_and_assign_rankings` fills in. -/
structure Movie where
  page_id : String
  name : String
  current_ranking : Option ℚ
  new_ranking : Option ℕ
deriving DecidableEq, Repr

/-- Sort key used by `movies_with_ranking.sort(key=lambda x: x["current_ranking"])`;
on the filtered list every record's `current_ranking` is non-`None`, so the
`getD` default is never reached there. -/
def rankKey (m : Movie) : ℚ := m.current_ranking.getD 0

/-- The comparison Python's stable sort uses on ranked records. -/
def rankLe (a b : Movie) : Prop := rankKey a ≤ rankKey b

instance : DecidableRel rankLe := fun a b => inferInstanceAs (Decidable (rankKey a ≤ rankKey b))

instance : IsTotal Movie rankLe := ⟨fun a b => le_total (rankKey a) (rankKey b)⟩

instance : IsTrans Movie rankLe := ⟨fun _ _ _ hab hbc => le_trans hab hbc⟩

/-- The `for i, movie in enumerate(movies_with_ranking, 1)` loop: assign
consecutive integer ranks starting at `i` down the list. -/
def assignRanks : ℕ → List Movie → List Movie
  | _, [] => []
  | i, m :: rest => { m with new_ranking := some i } :: assignRanks (i + 1) rest

/-- The `movie["new_ranking"] = None` assignment for unranked records. -/
def clearNew (m : Movie) : Movie := { m with new_ranking := none }

/-- Embedding of `sort_and_assign_rankings` (`update-ranking.py` lines
118–140): split off the records with a ranking, stable-sort them by current
ranking ascending, assign dense ranks 1..N, leave the rest unranked, return
ranked then unranked.  Python's `list.sort` is stable, and a stable sort by a
total preorder is unique, so `List.insertionSort` is an exact model. -/
def sort_and_assign_rankings (movies : List Movie) : List Movie :=
  assignRanks 1 (List.insertionSort rankLe (movies.filter fun m => m.current_ranking.isSome)) ++
    (movies.filter fun m => m.current_ranking.isNone).map clearNew

/-- Embedding of the write effect of `update_notion_rankings`
(`update-ranking.py` lines 171–208): the list of `(page_id, number)` patches
issued.  In dry-run mode the function returns before any write; otherwise it
patches every record of `movies_to_update`, i.e. every record whose
`new_ranking` is not `None`. -/
def update_notion_rankings (movies : List Movie) (dry_run : Bool) : List (String × ℕ) :=
  if dry_run then []
  else (movies.filter fun m => m.new_ranking.isSome).map fun m =>
    (m.page_id, m.new_ranking.getD 0)

/-- One page of the remote database, as the upsert logic sees it: a stable ID
plus its typed properties. -/
structure NotionPage where
  id : String
  props : List (String × NotionProp)
deriving DecidableEq, Repr

/-- Modelled from the spec: the remote `query-with-filter` call is not part
of the repository; §4.3 step 1 queries the collection for an exact match on
the key field, returning the pages whose key field extracts to the requested
value, in store order. -/
def queryKeyEquals (db : List NotionPage) (key_property key_value : String) : List NotionPage :=
  db.filter fun p => get_property_value p.props key_property == some key_value

/-- Embedding of `find_existing_page` (`add-new-row.py` lines 149–176): run
the equality query and return the first match's ID, `none` when there is no
match. -/
def find_existing_page (db : List NotionPage) (key_property key_value : String) : Option String :=
  ((queryKeyEquals db key_property key_value).head?).map fun p => p.id

/-- The `key in database_properties` / `database_properties[key]` pair on the
schema dict, modelled as association-list lookup. -/
def lookupType (database_properties : List (String × String)) (key : String) : Option String :=
  match database_properties with
  | [] => none
  | (k, t) :: rest => if k = key then some t else lookupType rest key

/-- The property-building loop of `create_or_update_page` (`add-new-row.py`
lines 241–261): walk the incoming JSON data in order, format each field that
exists in the schema, and collect the skip report `(key, value, reason)` for
the rest.  Returns `(properties, skipped_properties)`. -/
def buildProperties (json_data : List (String × Value)) (database_properties : List (String × String)) : List (String × Formatted) × List (String × Value × String) :=
  match json_data with
  | [] => ([], [])
  | (key, value) :: rest =>
    let built := buildProperties rest database_properties
    match lookupType database_properties key with
    | some prop_type =>
      match format_property_value value prop_type with
      | some f => ((key, f) :: built.1, built.2)
      | none => (built.1, (key, value, "failed to format for " ++ prop_type) :: built.2)
    | none => (built.1, (key, value, "property not found in database") :: built.2)

/-- The single remote write `create_or_update_page` issues: a patch of an
existing page or a creation of a new one, carrying exactly the formatted
properties. -/
inductive PageAction
  | update (page_id : String) (properties : List (String × Formatted))
  | create (database_id : String) (properties : List (String × Formatted))
deriving DecidableEq, Repr

/-- Embedding of the write decision of `create_or_update_page`
(`add-new-row.py` lines 263–279): patch the page when an ID was found,
otherwise create. -/
def create_or_update_page (database_id : String) (page_id : Option String) (json_data : List (String × Value)) (database_properties : List (String × String)) : PageAction :=
  let properties := (buildProperties json_data database_properties).1
  match page_id with
  | some pid => .update pid properties
  | none => .create database_id properties

/-- The upsert pipeline of `main` (`add-new-row.py` lines 343–353):
`find_existing_page` on the key value, then `create_or_update_page` with the
resulting page ID. -/
def upsert (db : List NotionPage) (database_id key_property key_value : String) (json_data : List (String × Value)) (database_properties : List (String × String)) : PageAction :=
  create_or_update_page database_id (find_existing_page db key_property key_value)
    json_data database_properties

/-- One entry of the TMDb search results list, as `fetch_movie_details` reads
it: the match's numeric ID and its optional `release_date` string. -/
structure SearchResult where
  tmdbId : ℤ
  release_date : Option String
deriving DecidableEq, Repr

/-- The per-movie details payload `fetch_movie_details` reads from the
get-details-by-id call: optional runtime and overview. -/
structure MovieDetails where
  runtime : Option ℤ
  overview : Option String
deriving DecidableEq, Repr

/-- The year-extraction idiom of `fetch_movie_details` (`movie-bot.py` lines
73–74): take the first four characters of a truthy `release_date`, then
convert to an int only when the slice is a non-empty all-digit string. -/
def parseFoundYear (release_date : Option String) : Option ℤ :=
  match release_date with
  | none => none
  | some s =>
    if s.isEmpty then none
    else
      let y4 := s.toList.take 4
      if y4 ≠ [] ∧ y4.all Char.isDigit then some (digitsVal y4 : ℤ) else none

/-- Embedding of `fetch_movie_details` (`movie-bot.py` lines 54–99): with no
search results return `(None, None, None)`; otherwise take the first match's
ID, derive the year from its release date, and read runtime and synopsis from
the details call (modelled as a function from IDs to payloads). -/
def fetch_movie_details (results : List SearchResult) (details : ℤ → MovieDetails) : Option ℤ × Option String × Option ℤ :=
  match results with
  | [] => (none, none, none)
  | r :: _ =>
    let found_year := parseFoundYear r.release_date
    let d := details r.tmdbId
    (d.runtime, d.overview, found_year)

/-- Python truthiness of an optional number (`None` and `0` are falsy). -/
def truthyNum (x : Option ℚ) : Bool :=
  match x with
  | none => false
  | some q => q != 0

/-- Python truthiness of an optional integer. -/
def truthyInt (z : Option ℤ) : Bool :=
  match z with
  | none => false
  | some n => n != 0

/-- Python truthiness of an optional string (`None` and `""` are falsy). -/
def truthyStr (s : Option String) : Bool :=
  match s with
  | none => false
  | some t => !t.isEmpty

/-- Embedding of the details section of the `movie-bot.py` processing loop
(lines 148–192): given the record's existing runtime, synopsis presence, year
and the `found_year` accumulated by the poster step, skip the fetch when
nothing is missing, otherwise fetch details and build the `update_properties`
patch, writing each derived field only when it passes the code's need/value
guards. -/
def detailsUpdateWrites (existing_runtime : Option ℚ) (has_synopsis : Bool) (year : Option ℚ) (found_year0 : Option ℚ) (results : List SearchResult) (details : ℤ → MovieDetails) : List (String × Formatted) :=
  let need_runtime := existing_runtime.isNone
  let need_synopsis := !has_synopsis
  let need_year := year.isNone
  if !need_runtime && !need_synopsis && !need_year then []
  else
    let r := fetch_movie_details results details
    let runtime := r.1
    let synopsis := r.2.1
    let details_year := r.2.2
    let found_year :=
      if truthyInt details_year && !truthyNum found_year0 then
        details_year.map fun z => (z : ℚ)
      else found_year0
    (if runtime.isSome && need_runtime then
      [("Runtime", Formatted.number ((runtime.getD 0 : ℤ) : ℚ))] else []) ++
    (if truthyStr synopsis && need_synopsis then
      [("Synopsis", Formatted.rich_text (synopsis.getD ""))] else []) ++
    (if truthyNum found_year && need_year then
      [("Year", Formatted.number (found_year.getD 0))] else [])

/-- The `re.sub(r'_+', '_', ...)` step of `get_custom_prompt_config`:
collapse every run of consecutive underscores to a single one. -/
def collapseUnd : List Char → List Char
  | [] => []
  | [c] => [c]
  | c1 :: c2 :: rest =>
    if c1 = '_' ∧ c2 = '_' then collapseUnd (c2 :: rest)
    else c1 :: collapseUnd (c2 :: rest)

/-- The `.strip('_')` step: drop underscores from both ends. -/
def trimUnd (cs : List Char) : List Char :=
  (((cs.dropWhile fun c => c = '_').reverse).dropWhile fun c => c = '_').reverse

/-- Embedding of the env-var name derivation in `get_custom_prompt_config`
(`add-new-row.py` lines 17–26): uppercase, replace every character outside
`[A-Za-z0-9]` by an underscore (`re.sub(r'[^A-Za-z0-9]', '_', ...)`),
collapse consecutive underscores, trim leading and trailing underscores. -/
def dbEnvName (database_name : String) : String :=
  String.mk (trimUnd (collapseUnd
    ((strUpper database_name).toList.map fun c => if c.isAlphanum then c else '_')))

/-- One database entry of the remote search results, as
`get_database_by_name` reads it: its ID and its title's rich-text runs. -/
structure DbResult where
  id : String
  titleRuns : List RichRun
deriving DecidableEq, Repr

/-- The per-candidate test of the `get_database_by_name` loop: a non-empty
title whose first run's plain text, lowercased, equals the lowercased
requested name. -/
def dbMatches (database_name : String) (db : DbResult) : Bool :=
  match db.titleRuns with
  | [] => false
  | r :: _ => strLower (r.plain_text.getD "") == strLower database_name

/-- Embedding of `get_database_by_name` (`add-new-row.py` lines 111–135; the
`photo-enricher.py` lines 64–96 loop is identical on its candidate list):
scan the search results in order and return the first case-insensitive title
match's ID, `none` when no candidate matches. -/
def get_database_by_name (databases : List DbResult) (database_name : String) : Option String :=
  match databases with
  | [] => none
  | db :: rest =>
    if dbMatches database_name db then some db.id
    else get_database_by_name rest database_name

/-- The title a candidate database carries, when it has one: the first title
run's plain text (defaulted to the empty string). -/
def dbTitle (db : DbResult) : Option String :=
  db.titleRuns.head?.map fun r => r.plain_text.getD ""

/-! ## Helper lemmas -/

lemma lookupProp_single (n : String) (p : NotionProp) : lookupProp [(n, p)] n = some p := by
  simp [lookupProp]

lemma get_single (n : String) (p : NotionProp) :
    get_property_value [(n, p)] n = readPropText p := by
  simp [get_property_value, lookupProp_single]

lemma format_title_eq (v : Value) :
    format_property_value v "title" = some (.title (pyStr v)) := rfl

lemma format_rich_text_eq (v : Value) :
    format_property_value v "rich_text" = some (.rich_text (pyStr v)) := rfl

lemma format_number_eq (v : Value) :
    format_property_value v "number" = (pyFloat v).map .number := rfl

lemma format_checkbox_eq (v : Value) :
    format_property_value v "checkbox" =
      match v with
      | .bool b => some (.checkbox b)
      | v =>
        if strLower (pyStr v) ∈ ["true", "yes", "1"] then some (.checkbox true)
        else if strLower (pyStr v) ∈ ["false", "no", "0"] then some (.checkbox false)
        else none := by
  cases v <;> rfl

lemma readPropText_echo_nontext (f : Formatted)
    (h1 : ∀ c, f ≠ .title c) (h2 : ∀ c, f ≠ .rich_text c) :
    readPropText (echo f) = none := by
  cases f
  · exact absurd rfl (h1 _)
  · exact absurd rfl (h2 _)
  all_goals rfl

lemma format_shape_nontext (v : Value) (t : String)
    (h1 : t ≠ "title") (h2 : t ≠ "rich_text") (f : Formatted)
    (hf : format_property_value v t = some f) :
    readPropText (echo f) = none := by
  unfold format_property_value at hf
  rw [if_neg h1, if_neg h2] at hf
  split_ifs at hf
  · cases hq : pyFloat v <;> rw [hq] at hf
    · exact absurd hf (by simp)
    · simp only [Option.map_some'] at hf
      injection hf with h
      subst h
      rfl
  · cases v <;> dsimp only at hf <;> first
      | (injection hf with h; subst h; rfl)
      | (split_ifs at hf <;> (injection hf with h; subst h; rfl))
  · injection hf with h; subst h; rfl
  · cases v <;> dsimp only at hf <;> (injection hf with h; subst h; rfl)
  all_goals (injection hf with h; subst h; rfl)

/-! ## C1 — round-trip of the field writer through the field reader -/

/-- C1 counterexample: the claim quantifies over every field type the writer
supports, but already for `number` the round-trip fails: formatting the value
`3` for a number field succeeds, yet reading the stored number property back
with `get_property_value` yields `none`, not a value string-wise equal to the
input — the reader has no `number` branch. -/
theorem c1_roundtrip_counterexample :
    format_property_value (.int 3) "number" = some (.number 3) ∧
    get_property_value [("Seasons", echo (.number 3))] "Seasons" = none := by
  constructor
  · decide
  · decide

/-- C1 amended: the format/read round-trip holds only for the text-like
writer types.  For `title` and `rich_text`, formatting any value and reading
the stored property back recovers `str(value)` — string-wise equal to the
original for string inputs.  For each of the seven remaining writer-supported
types (`number`, `checkbox`, `select`, `multi_select`, `url`, `email`,
`phone_number`), whenever formatting succeeds the reader yields `none` on the
stored result, because `get_property_value` supports none of those declared
types. -/
theorem c1_roundtrip_amended : ∀ (v : Value) (propName : String),
    (∀ f, format_property_value v "title" = some f →
      get_property_value [(propName, echo f)] propName = some (pyStr v)) ∧
    (∀ f, format_property_value v "rich_text" = some f →
      get_property_value [(propName, echo f)] propName = some (pyStr v)) ∧
    ∀ t ∈ (["number", "checkbox", "select", "multi_select", "url", "email",
        "phone_number"] : List String),
      ∀ f, format_property_value v t = some f →
        get_property_value [(propName, echo f)] propName = none := by
  intro v n
  refine ⟨fun f hf => ?_, fun f hf => ?_, fun t ht f hf => ?_⟩
  · rw [format_title_eq] at hf
    injection hf with h
    subst h
    rw [get_single]
    rfl
  · rw [format_rich_text_eq] at hf
    injection hf with h
    subst h
    rw [get_single]
    rfl
  · rw [get_single]
    fin_cases ht <;> exact format_shape_nontext v _ (by decide) (by decide) f hf

/-- C1 witness: the amended round-trip theorem applied at a concrete value
and the concrete type `url`. -/
theorem c1_roundtrip_amended_witness :
    ("url" ∈ (["number", "checkbox", "select", "multi_select", "url", "email",
        "phone_number"] : List String)) ∧
    format_property_value (.str "x") "url" = some (.url "x") ∧
    get_property_value [("K", echo (.url "x"))] "K" = none :=
  ⟨by decide, by decide,
    (c1_roundtrip_amended (.str "x") "K").2.2 "url" (by decide) (.url "x") (by decide)⟩

/-! ## C6 — checkbox formatting -/

lemma not_mem_true_strings_of_mem_false_strings (s : String)
    (h : s ∈ (["false", "no", "0"] : List String)) :
    s ∉ (["true", "yes", "1"] : List String) := by
  fin_cases h <;> decide

/-- C6: checkbox formatting accepts a native boolean unchanged; any value
whose lowercased `str()` form is `true`/`yes`/`1` maps to boolean true, any
whose lowercased form is `false`/`no`/`0` maps to boolean false, everything
else yields `none` (Python's skip path prints the notice and returns `None`);
in particular the string `"yes"` formats to true and `"maybe"` to `none`. -/
theorem c6_checkbox_formatting :
    (∀ b : Bool, format_property_value (.bool b) "checkbox" = some (.checkbox b)) ∧
    (∀ v : Value, strLower (pyStr v) ∈ (["true", "yes", "1"] : List String) →
      format_property_value v "checkbox" = some (.checkbox true)) ∧
    (∀ v : Value, strLower (pyStr v) ∈ (["false", "no", "0"] : List String) →
      format_property_value v "checkbox" = some (.checkbox false)) ∧
    (∀ v : Value, strLower (pyStr v) ∉ (["true", "yes", "1"] : List String) →
      strLower (pyStr v) ∉ (["false", "no", "0"] : List String) →
      format_property_value v "checkbox" = none) ∧
    format_property_value (.str "yes") "checkbox" = some (.checkbox true) ∧
    format_property_value (.str "maybe") "checkbox" = none := by
  refine ⟨fun b => by cases b <;> rfl, fun v hv => ?_, fun v hv => ?_,
    fun v hv1 hv2 => ?_, by decide, by decide⟩
  · rw [format_checkbox_eq]
    cases v
    case bool b =>
      cases b
      · exact absurd hv (by decide)
      · rfl
    all_goals (dsimp only; rw [if_pos hv])
  · rw [format_checkbox_eq]
    cases v
    case bool b =>
      cases b
      · rfl
      · exact absurd hv (by decide)
    all_goals dsimp only
    all_goals rw [if_neg (not_mem_true_strings_of_mem_false_strings _ hv), if_pos hv]
  · rw [format_checkbox_eq]
    cases v
    case bool b =>
      cases b
      · exact absurd (by decide) hv2
      · exact absurd (by decide) hv1
    all_goals (dsimp only; rw [if_neg hv1, if_neg hv2])

/-- C6 witness: the checkbox theorem applied at the concrete string `"1"`. -/
theorem c6_checkbox_formatting_witness :
    (strLower (pyStr (.str "1")) ∈ (["true", "yes", "1"] : List String)) ∧
    format_property_value (.str "1") "checkbox" = some (.checkbox true) :=
  ⟨by decide, c6_checkbox_formatting.2.1 (.str "1") (by decide)⟩

/-! ## C10 — database-name resolution -/

lemma dbMatches_eq (database_name : String) (db : DbResult) :
    dbMatches database_name db =
      ((dbTitle db).map strLower == some (strLower database_name)) := by
  rcases db with ⟨i, runs⟩
  cases runs <;> rfl

/-- C10: `get_database_by_name` returns exactly the ID of the first candidate
whose title (the first title run's plain text), lowercased, equals the
lowercased requested name, and `none` when no candidate's lowercased title
matches; the concrete conjunct shows a title differing from the request only
in letter case is still matched. -/
theorem c10_database_lookup :
    (∀ (databases : List DbResult) (database_name : String),
      get_database_by_name databases database_name =
        (databases.find? fun db =>
          (dbTitle db).map strLower == some (strLower database_name)).map
          fun db => db.id) ∧
    get_database_by_name [⟨"id1", [⟨some "My MOVIES"⟩]⟩] "my movies" = some "id1" := by
  constructor
  · intro dbs name
    induction dbs with
    | nil => rfl
    | cons db rest ih =>
      rw [List.find?_cons, ← dbMatches_eq]
      cases h : dbMatches name db
      · simpa [get_database_by_name, h] using ih
      · simp [get_database_by_name, h]
  · decide

/-! ## C9 — the field reader is total and silent -/

/-- The stored property kinds the reader's dispatch chain supports: title,
rich_text, plain_text, and formula restricted to the string/number/boolean/
date sub-kinds. -/
def kindSupported : NotionProp → Bool
  | .title _ => true
  | .rich_text _ => true
  | .plain_text _ => true
  | .formula d =>
    match d with
    | .fother _ => false
    | _ => true
  | _ => false

/-- C9: `get_property_value` is a total function (by construction, matching
the Python body's guarded indexing and defaulted lookups, which cannot
raise), yields `none` both for a missing property and for any property whose
declared type is not among the supported kinds, and for multi-run title or
rich-text payloads returns the first run's plain text only, ignoring all
later runs. -/
theorem c9_reader_total_and_silent :
    ∀ (page_properties : List (String × NotionProp)) (property_name : String),
    (lookupProp page_properties property_name = none →
      get_property_value page_properties property_name = none) ∧
    (∀ p, lookupProp page_properties property_name = some p → kindSupported p = false →
      get_property_value page_properties property_name = none) ∧
    (∀ r rest, lookupProp page_properties property_name = some (.title (r :: rest)) →
      get_property_value page_properties property_name = some (r.plain_text.getD "")) ∧
    (∀ r rest, lookupProp page_properties property_name = some (.rich_text (r :: rest)) →
      get_property_value page_properties property_name = some (r.plain_text.getD "")) := by
  intro props nm
  refine ⟨fun h => ?_, fun p hp hk => ?_, fun r rest h => ?_, fun r rest h => ?_⟩
  · simp [get_property_value, h]
  · simp only [get_property_value, hp]
    cases p
    case formula d => cases d <;> simp_all [kindSupported, readPropText]
    all_goals simp_all [kindSupported, readPropText]
  · simp [get_property_value, h, readPropText]
  · simp [get_property_value, h, readPropText]

/-- C9 witness: the reader theorem applied to a concrete files-typed
property. -/
theorem c9_reader_total_and_silent_witness :
    lookupProp [("Poster", NotionProp.other "files")] "Poster" = some (.other "files") ∧
    kindSupported (.other "files") = false ∧
    get_property_value [("Poster", NotionProp.other "files")] "Poster" = none :=
  ⟨by decide, rfl,
    (c9_reader_total_and_silent [("Poster", .other "files")] "Poster").2.1
      (.other "files") (by decide) rfl⟩

/-! ## C5 — which records receive a rank write -/

/-- C5 counterexample: a single record already holding rank 1 keeps rank 1
(`new_ranking = 1` equals `current_ranking = 1`), yet apply mode still issues
a write for it — `update_notion_rankings` filters only on `new_ranking is not
None`, not on whether the rank changed. -/
theorem c5_counterexample :
    sort_and_assign_rankings [⟨"p1", "A", some 1, none⟩] = [⟨"p1", "A", some 1, some 1⟩] ∧
    (Movie.mk "p1" "A" (some 1) (some 1)).new_ranking.map (fun n => (n : ℚ)) =
      (Movie.mk "p1" "A" (some 1) (some 1)).current_ranking ∧
    update_notion_rankings [⟨"p1", "A", some 1, some 1⟩] false = [("p1", 1)] := by
  refine ⟨by decide, by decide, by decide⟩

/-- C5 amended: dry-run mode issues no write at all, and apply mode issues a
write for exactly the records whose `new_ranking` is non-`None` — including
records whose new rank equals their current rank. -/
theorem c5_amended : ∀ (movies : List Movie) (dry_run : Bool),
    (dry_run = true → update_notion_rankings movies dry_run = []) ∧
    (∀ m ∈ movies, ∀ n, m.new_ranking = some n →
      (m.page_id, n) ∈ update_notion_rankings movies false) ∧
    (∀ pid n, (pid, n) ∈ update_notion_rankings movies false →
      ∃ m ∈ movies, m.page_id = pid ∧ m.new_ranking = some n) := by
  intro movies dry
  refine ⟨fun h => by simp [update_notion_rankings, h], fun m hm n hn => ?_,
    fun pid n hmem => ?_⟩
  · simp only [update_notion_rankings, Bool.false_eq_true, if_false]
    exact List.mem_map.mpr ⟨m, List.mem_filter.mpr ⟨hm, by simp [hn]⟩, by simp [hn]⟩
  · simp only [update_notion_rankings, Bool.false_eq_true, if_false] at hmem
    obtain ⟨m, hmf, heq⟩ := List.mem_map.mp hmem
    obtain ⟨hm, hsome⟩ := List.mem_filter.mp hmf
    obtain ⟨k, hk⟩ := Option.isSome_iff_exists.mp hsome
    obtain ⟨h1, h2⟩ := Prod.mk.injEq .. ▸ heq
    exact ⟨m, hm, h1, by rw [hk]; rw [hk] at h2; simpa using h2.symm ▸ rfl⟩

/-- C5 witness: the amended theorem applied to a concrete unchanged-rank
record in apply mode. -/
theorem c5_amended_witness :
    ("p1", 1) ∈ update_notion_rankings [⟨"p1", "A", some 1, some 1⟩] false :=
  (c5_amended [⟨"p1", "A", some 1, some 1⟩] false).2.1 ⟨"p1", "A", some 1, some 1⟩
    (List.mem_singleton.mpr rfl) 1 rfl

/-! ## C7 — empty search results and the write-only-if-missing policy -/

/-- C7: when the upstream search returns an empty results list,
`fetch_movie_details` yields `(None, None, None)` for runtime, synopsis and
year; and the caller's details step never writes a derived field that is
already populated — an existing runtime, an existing synopsis run, or an
existing year each keep their field out of the update patch. -/
theorem c7_details_fetch_and_merge : ∀ (details : ℤ → MovieDetails)
    (existing_runtime : Option ℚ) (has_synopsis : Bool) (year found_year0 : Option ℚ)
    (results : List SearchResult),
    fetch_movie_details [] details = (none, none, none) ∧
    (existing_runtime.isSome = true →
      "Runtime" ∉ (detailsUpdateWrites existing_runtime has_synopsis year found_year0
        results details).map Prod.fst) ∧
    (has_synopsis = true →
      "Synopsis" ∉ (detailsUpdateWrites existing_runtime has_synopsis year found_year0
        results details).map Prod.fst) ∧
    (year.isSome = true →
      "Year" ∉ (detailsUpdateWrites existing_runtime has_synopsis year found_year0
        results details).map Prod.fst) := by
  intro details er hs yr fy rs
  refine ⟨rfl, fun h => ?_, fun h => ?_, fun h => ?_⟩
  · cases er with
    | none => simp at h
    | some a =>
      simp only [detailsUpdateWrites]
      split
      · simp
      · repeat' split
        all_goals simp_all
  · cases hs
    · simp at h
    · simp only [detailsUpdateWrites]
      split
      · simp
      · repeat' split
        all_goals simp_all
  · cases yr with
    | none => simp at h
    | some a =>
      simp only [detailsUpdateWrites]
      split
      · simp
      · repeat' split
        all_goals simp_all

/-- C7 witness: the theorem applied at a concrete record whose three derived
fields are all populated: the details step issues no write at all. -/
theorem c7_details_fetch_and_merge_witness :
    (some (136 : ℚ)).isSome = true ∧
    "Runtime" ∉ (detailsUpdateWrites (some 136) true (some 1999) (some 1999)
      [⟨42, some "1999-03-31"⟩] (fun _ => ⟨some 136, some "x"⟩)).map Prod.fst :=
  ⟨rfl, (c7_details_fetch_and_merge (fun _ => ⟨some 136, some "x"⟩) (some 136) true
    (some 1999) (some 1999) [⟨42, some "1999-03-31"⟩]).2.1 rfl⟩

/-! ## C4 — upsert patches the existing record -/

lemma mem_buildProperties_keys : ∀ (json_data : List (String × Value))
    (database_properties : List (String × String)) (nm : String) (f : Formatted),
    (nm, f) ∈ (buildProperties json_data database_properties).1 →
    ∃ v, (nm, v) ∈ json_data := by
  intro json dbp nm f
  induction json with
  | nil => intro h; exact absurd h (List.not_mem_nil _)
  | cons kv rest ih =>
    intro h
    obtain ⟨k, v⟩ := kv
    simp only [buildProperties] at h
    cases hl : lookupType dbp k with
    | none =>
      rw [hl] at h
      dsimp only at h
      obtain ⟨v2, hv2⟩ := ih h
      exact ⟨v2, List.mem_cons_of_mem _ hv2⟩
    | some t =>
      rw [hl] at h
      dsimp only at h
      cases hfv : format_property_value v t with
      | none =>
        rw [hfv] at h
        dsimp only at h
        obtain ⟨v2, hv2⟩ := ih h
        exact ⟨v2, List.mem_cons_of_mem _ hv2⟩
      | some fv =>
        rw [hfv] at h
        dsimp only at h
        rcases List.mem_cons.mp h with heq | htail
        · obtain ⟨h1, _⟩ := Prod.mk.injEq .. ▸ heq
          exact ⟨v, h1 ▸ List.mem_cons_self _ _⟩
        · obtain ⟨v2, hv2⟩ := ih htail
          exact ⟨v2, List.mem_cons_of_mem _ hv2⟩

lemma find_existing_page_of_mem (db : List NotionPage) (key_property key_value : String)
    (p : NotionPage) (hp : p ∈ db)
    (hget : get_property_value p.props key_property = some key_value) :
    ∃ q ∈ db, find_existing_page db key_property key_value = some q.id ∧
      get_property_value q.props key_property = some key_value := by
  have hmem : p ∈ queryKeyEquals db key_property key_value :=
    List.mem_filter.mpr ⟨hp, by simp [hget]⟩
  cases hq : (queryKeyEquals db key_property key_value).head? with
  | none =>
    rw [List.head?_eq_none_iff] at hq
    rw [hq] at hmem
    exact absurd hmem (List.not_mem_nil _)
  | some q =>
    have hqmem : q ∈ queryKeyEquals db key_property key_value := by
      cases hl : queryKeyEquals db key_property key_value with
      | nil => rw [hl] at hq; cases hq
      | cons a t =>
        rw [hl] at hq
        injection hq with h
        subst h
        exact List.mem_cons_self _ _
    obtain ⟨hqdb, hqpred⟩ := List.mem_filter.mp hqmem
    refine ⟨q, hqdb, ?_, ?_⟩
    · simp [find_existing_page, hq]
    · simpa using hqpred

/-- C4: when the database holds a page whose key field extracts to exactly
the incoming key value, the upsert pipeline issues an update against a
matching page's ID (the first query match) and never a create; the update's
property payload mentions only field names present in the incoming data, so
fields the incoming data does not name are untouched by the partial patch. -/
theorem c4_upsert_patches_existing : ∀ (db : List NotionPage)
    (database_id key_property key_value : String) (json_data : List (String × Value))
    (database_properties : List (String × String)) (p : NotionPage),
    p ∈ db →
    get_property_value p.props key_property = some key_value →
    (key_property, Value.str key_value) ∈ json_data →
    ∃ pid properties,
      upsert db database_id key_property key_value json_data database_properties =
        .update pid properties ∧
      (∃ q ∈ db, q.id = pid ∧ get_property_value q.props key_property = some key_value) ∧
      (∀ nm f, (nm, f) ∈ properties → ∃ v, (nm, v) ∈ json_data) ∧
      (∀ d ps, upsert db database_id key_property key_value json_data database_properties ≠
        .create d ps) := by
  intro db did key kv json dbp p hp hget hkey
  obtain ⟨q, hq, hfind, hqget⟩ := find_existing_page_of_mem db key kv p hp hget
  refine ⟨q.id, (buildProperties json dbp).1, ?_, ⟨q, hq, rfl, hqget⟩,
    fun nm f hf => mem_buildProperties_keys json dbp nm f hf, ?_⟩
  · simp [upsert, create_or_update_page, hfind]
  · intro d ps hcontra
    simp [upsert, create_or_update_page, hfind] at hcontra

/-- C4 witness: the upsert theorem applied to a concrete one-page database
and a concrete incoming record with the same key. -/
theorem c4_upsert_patches_existing_witness :
    get_property_value [("Name", NotionProp.title [⟨some "Heat"⟩])] "Name" = some "Heat" ∧
    ∃ pid properties,
      upsert [⟨"page9", [("Name", .title [⟨some "Heat"⟩])]⟩] "db1" "Name" "Heat"
        [("Name", .str "Heat"), ("Year", .int 1995)] [("Name", "title"), ("Year", "number")] =
        .update pid properties :=
  ⟨by decide, by
    obtain ⟨pid, props, hupd, _⟩ := c4_upsert_patches_existing
      [⟨"page9", [("Name", .title [⟨some "Heat"⟩])]⟩] "db1" "Name" "Heat"
      [("Name", .str "Heat"), ("Year", .int 1995)] [("Name", "title"), ("Year", "number")]
      ⟨"page9", [("Name", .title [⟨some "Heat"⟩])]⟩ (List.mem_singleton.mpr rfl)
      (by decide) (List.mem_cons_self _ _)
    exact ⟨pid, props, hupd⟩⟩

/-! ## C8 — environment-variable name derivation -/

/-- No two consecutive underscores anywhere in the character list. -/
def noDoubleUnd : List Char → Bool
  | [] => true
  | [_] => true
  | c1 :: c2 :: rest => !(decide (c1 = '_') && decide (c2 = '_')) && noDoubleUnd (c2 :: rest)

/-- Neither the first nor the last character is an underscore. -/
def edgeOk (cs : List Char) : Bool :=
  !(decide (cs.head?.getD 'A' = '_')) && !(decide (cs.getLast?.getD 'A' = '_'))

lemma all_collapseUnd (p : Char → Bool) :
    ∀ cs : List Char, cs.all p = true → (collapseUnd cs).all p = true
  | [], h => h
  | [_], h => h
  | c1 :: c2 :: rest, h => by
    simp only [collapseUnd]
    rw [List.all_cons, Bool.and_eq_true] at h
    by_cases hc : c1 = '_' ∧ c2 = '_'
    · rw [if_pos hc]
      exact all_collapseUnd p (c2 :: rest) h.2
    · rw [if_neg hc, List.all_cons, h.1, Bool.true_and]
      exact all_collapseUnd p (c2 :: rest) h.2

lemma collapseUnd_cons : ∀ (x : Char) (xs : List Char), ∃ t, collapseUnd (x :: xs) = x :: t
  | _, [] => ⟨[], rfl⟩
  | x, y :: r => by
    by_cases h : x = '_' ∧ y = '_'
    · obtain ⟨t, ht⟩ := collapseUnd_cons y r
      refine ⟨t, ?_⟩
      simp only [collapseUnd]
      rw [if_pos h, ht, h.1, h.2]
    · refine ⟨collapseUnd (y :: r), ?_⟩
      simp only [collapseUnd]
      rw [if_neg h]

lemma noDoubleUnd_collapseUnd : ∀ cs : List Char, noDoubleUnd (collapseUnd cs) = true
  | [] => rfl
  | [_] => rfl
  | c1 :: c2 :: rest => by
    simp only [collapseUnd]
    by_cases h : c1 = '_' ∧ c2 = '_'
    · rw [if_pos h]
      exact noDoubleUnd_collapseUnd (c2 :: rest)
    · rw [if_neg h]
      obtain ⟨t, ht⟩ := collapseUnd_cons c2 rest
      have htail := noDoubleUnd_collapseUnd (c2 :: rest)
      rw [ht] at htail ⊢
      show (!(decide (c1 = '_') && decide (c2 = '_')) && noDoubleUnd (c2 :: t)) = true
      rw [htail, Bool.and_true]
      by_cases h1 : c1 = '_' <;> by_cases h2 : c2 = '_' <;>
        simp_all

/-- The pairwise form of `noDoubleUnd`. -/
def undFree (a b : Char) : Prop := ¬(a = '_' ∧ b = '_')

lemma noDoubleUnd_iff_chain :
    ∀ cs : List Char, noDoubleUnd cs = true ↔ List.Chain' undFree cs
  | [] => by simp [noDoubleUnd]
  | [c] => by simp [noDoubleUnd]
  | c1 :: c2 :: rest => by
    rw [List.chain'_cons, ← noDoubleUnd_iff_chain (c2 :: rest)]
    show (!(decide (c1 = '_') && decide (c2 = '_')) && noDoubleUnd (c2 :: rest)) = true ↔ _
    rw [Bool.and_eq_true]
    simp only [undFree, Bool.not_eq_true', Bool.and_eq_false_iff, decide_eq_false_iff_not,
      not_and]
    constructor
    · rintro ⟨h1, h2⟩
      exact ⟨fun ha hb => by rcases h1 with h | h <;> exact h (by assumption), h2⟩
    · rintro ⟨h1, h2⟩
      refine ⟨?_, h2⟩
      by_cases hc : c1 = '_'
      · exact Or.inr (h1 hc)
      · exact Or.inl hc

lemma trimUnd_within (cs : List Char) : trimUnd cs <:+: cs := by
  unfold trimUnd
  have h1 : cs.dropWhile (fun c => c = '_') <:+ cs := List.dropWhile_suffix _
  have h2 : (((cs.dropWhile fun c => c = '_').reverse).dropWhile fun c => c = '_').reverse <+:
      cs.dropWhile fun c => c = '_' := by
    rw [← List.reverse_suffix]
    simpa [List.reverse_reverse] using
      List.dropWhile_suffix (l := (cs.dropWhile fun c => c = '_').reverse)
        (fun c => decide (c = '_'))
  exact List.IsInfix.trans ( List.IsPrefix.isInfix h2) ( List.IsSuffix.isInfix h1)

lemma head_dropWhile_false (p : Char → Bool) :
    ∀ (l : List Char) (c : Char), (l.dropWhile p).head? = some c → p c = false
  | [], c, h => by simp [List.dropWhile] at h
  | x :: xs, c, h => by
    rw [List.dropWhile_cons] at h
    by_cases hx : p x = true
    · rw [if_pos hx] at h
      exact head_dropWhile_false p xs c h
    · rw [if_neg hx] at h
      injection h with h
      subst h
      exact Bool.not_eq_true _ ▸ hx

lemma prefix_head_eq {b a : List Char} (h : b <+: a) (c : Char) (hc : b.head? = some c) :
    a.head? = some c := by
  obtain ⟨t, ht⟩ := h
  cases b with
  | nil => cases hc
  | cons x xs =>
    injection hc with hc
    subst hc
    rw [← ht]
    rfl

lemma edgeOk_trimUnd (cs : List Char) : edgeOk (trimUnd cs) = true := by
  have hpre : trimUnd cs <+:
      cs.dropWhile fun c => c = '_' := by
    unfold trimUnd
    rw [← List.reverse_suffix]
    simpa [List.reverse_reverse] using
      List.dropWhile_suffix (l := (cs.dropWhile fun c => c = '_').reverse)
        (fun c => decide (c = '_'))
  have hrev : (trimUnd cs).reverse =
      ((cs.dropWhile fun c => c = '_').reverse).dropWhile fun c => c = '_' := by
    unfold trimUnd
    rw [List.reverse_reverse]
  unfold edgeOk
  rw [Bool.and_eq_true]
  constructor
  · cases hh : (trimUnd cs).head? with
    | none => simp
    | some c =>
      have := head_dropWhile_false _ _ _ (prefix_head_eq hpre c hh)
      simpa using this
  · cases hl : (trimUnd cs).getLast? with
    | none => simp
    | some c =>
      rw [← List.head?_reverse, hrev] at hl
      have := head_dropWhile_false _ _ _ hl
      simpa using this

lemma all_trimUnd (p : Char → Bool) (cs : List Char) (h : cs.all p = true) :
    (trimUnd cs).all p = true := by
  rw [List.all_eq_true] at h ⊢
  exact fun x hx => h x ((trimUnd_within cs).sublist.subset hx)

lemma all_mapUnd (s : String) :
    (((strUpper s).toList.map fun c => if c.isAlphanum then c else '_').all
      fun c => c.isAlphanum || decide (c = '_')) = true := by
  rw [List.all_map, List.all_eq_true]
  intro c _
  by_cases h : c.isAlphanum <;> simp [h]

/-- C8: the env prefix derivation computes the claimed example, and for every
input the result's shape witnesses each step of the pipeline: only
alphanumeric characters or underscores remain (non-alphanumeric characters
were replaced), no two consecutive underscores remain (runs were collapsed),
and no underscore is left at either edge (edges were trimmed). -/
theorem c8_env_name_derivation :
    dbEnvName "Book Reviews (2024)" = "BOOK_REVIEWS_2024" ∧
    ∀ database_name : String,
      ((dbEnvName database_name).data.all fun c => c.isAlphanum || decide (c = '_')) = true ∧
      noDoubleUnd (dbEnvName database_name).data = true ∧
      edgeOk (dbEnvName database_name).data = true := by
  refine ⟨by decide, fun s => ⟨?_, ?_, ?_⟩⟩
  · exact all_trimUnd _ _ (all_collapseUnd _ _ (all_mapUnd s))
  · exact (noDoubleUnd_iff_chain _).mpr
      ( List.Chain'.infix ((noDoubleUnd_iff_chain _).mp (noDoubleUnd_collapseUnd _))
        (trimUnd_within _))
  · exact edgeOk_trimUnd _

/-! ## C2 and C3 — rank renumbering -/

lemma clearNew_current (m : Movie) : (clearNew m).current_ranking = m.current_ranking := rfl

lemma mem_assignRanks : ∀ (i : ℕ) (l : List Movie) (m : Movie), m ∈ assignRanks i l →
    (∃ x ∈ l, m.current_ranking = x.current_ranking) ∧ ∃ n, m.new_ranking = some n ∧ i ≤ n
  | _, [], _, h => absurd h (List.not_mem_nil _)
  | i, a :: rest, m, h => by
    rcases List.mem_cons.mp h with rfl | htail
    · exact ⟨⟨a, List.mem_cons_self _ _, rfl⟩, ⟨i, rfl, le_refl i⟩⟩
    · obtain ⟨⟨x, hx, hcur⟩, ⟨n, hn, hin⟩⟩ := mem_assignRanks (i + 1) rest m htail
      exact ⟨⟨x, List.mem_cons_of_mem _ hx, hcur⟩, ⟨n, hn, le_trans (Nat.le_succ i) hin⟩⟩

lemma mem_assignRanks_of_mem : ∀ (i : ℕ) (l : List Movie) (x : Movie), x ∈ l →
    ∃ n, { x with new_ranking := some n } ∈ assignRanks i l
  | _, [], _, h => absurd h (List.not_mem_nil _)
  | i, a :: rest, x, h => by
    rcases List.mem_cons.mp h with rfl | htail
    · exact ⟨i, List.mem_cons_self _ _⟩
    · obtain ⟨n, hn⟩ := mem_assignRanks_of_mem (i + 1) rest x htail
      exact ⟨n, List.mem_cons_of_mem _ hn⟩

lemma assignRanks_sorted : ∀ (i : ℕ) (l : List Movie), List.Sorted rankLe l →
    List.Sorted rankLe (assignRanks i l)
  | _, [], _ => List.sorted_nil
  | i, a :: rest, h => by
    rw [List.sorted_cons] at h
    show List.Sorted rankLe ({ a with new_ranking := some i } :: assignRanks (i + 1) rest)
    rw [List.sorted_cons]
    refine ⟨fun b hb => ?_, assignRanks_sorted (i + 1) rest h.2⟩
    obtain ⟨⟨x, hx, hcur⟩, _⟩ := mem_assignRanks _ _ _ hb
    have hax := h.1 x hx
    show rankKey a ≤ rankKey b
    have hbx : rankKey b = rankKey x := by simp [rankKey, hcur]
    rw [hbx]
    exact hax

lemma assignRanks_rank_lt : ∀ (l : List Movie) (i : ℕ), List.Sorted rankLe l →
    ∀ a b, a ∈ assignRanks i l → b ∈ assignRanks i l → rankKey a < rankKey b →
    ∃ na nb, a.new_ranking = some na ∧ b.new_ranking = some nb ∧ na < nb
  | [], _, _, _, _, ha, _, _ => absurd ha (List.not_mem_nil _)
  | m :: rest, i, hsorted, a, b, ha, hb, hab => by
    rw [List.sorted_cons] at hsorted
    rcases List.mem_cons.mp ha with rfl | hatail
    · rcases List.mem_cons.mp hb with rfl | hbtail
      · exact absurd hab (lt_irrefl _)
      · obtain ⟨_, nb, hnb, hnbge⟩ := mem_assignRanks _ _ _ hbtail
        exact ⟨i, nb, rfl, hnb, lt_of_lt_of_le (Nat.lt_succ_self i) hnbge⟩
    · rcases List.mem_cons.mp hb with rfl | hbtail
      · obtain ⟨⟨x, hx, hcur⟩, _⟩ := mem_assignRanks _ _ _ hatail
        have hmx := hsorted.1 x hx
        have hax : rankKey a = rankKey x := by simp [rankKey, hcur]
        have : rankKey { m with new_ranking := some i } ≤ rankKey a := by
          rw [hax]
          exact hmx
        exact absurd hab (not_lt.mpr this)
      · exact assignRanks_rank_lt rest (i + 1) hsorted.2 a b hatail hbtail hab

lemma filter_output_some (movies : List Movie) :
    (sort_and_assign_rankings movies).filter (fun m => m.current_ranking.isSome) =
      assignRanks 1 (List.insertionSort rankLe
        (movies.filter fun m => m.current_ranking.isSome)) := by
  unfold sort_and_assign_rankings
  rw [List.filter_append]
  have h1 : ∀ m ∈ assignRanks 1 (List.insertionSort rankLe
      (movies.filter fun m => m.current_ranking.isSome)), m.current_ranking.isSome = true := by
    intro m hm
    obtain ⟨⟨x, hx, hcur⟩, _⟩ := mem_assignRanks _ _ _ hm
    rw [List.mem_insertionSort] at hx
    have := List.of_mem_filter hx
    rw [hcur]
    exact this
  have h2 : ∀ m ∈ (movies.filter fun m => m.current_ranking.isNone).map clearNew,
      ¬ m.current_ranking.isSome = true := by
    intro m hm
    obtain ⟨x, hx, rfl⟩ := List.mem_map.mp hm
    have := List.of_mem_filter hx
    simp_all [clearNew_current, Option.isNone_iff_eq_none]
  rw [List.filter_eq_self.mpr h1, List.filter_eq_nil_iff.mpr h2, List.append_nil]

lemma filter_output_none (movies : List Movie) :
    (sort_and_assign_rankings movies).filter (fun m => m.current_ranking.isNone) =
      (movies.filter fun m => m.current_ranking.isNone).map clearNew := by
  unfold sort_and_assign_rankings
  rw [List.filter_append]
  have h1 : ∀ m ∈ assignRanks 1 (List.insertionSort rankLe
      (movies.filter fun m => m.current_ranking.isSome)), ¬ m.current_ranking.isNone = true := by
    intro m hm
    obtain ⟨⟨x, hx, hcur⟩, _⟩ := mem_assignRanks _ _ _ hm
    rw [List.mem_insertionSort] at hx
    have hsome := List.of_mem_filter hx
    rw [hcur, Option.isNone_iff_eq_none]
    intro hnone
    rw [hnone] at hsome
    simp at hsome
  have h2 : ∀ m ∈ (movies.filter fun m => m.current_ranking.isNone).map clearNew,
      m.current_ranking.isNone = true := by
    intro m hm
    obtain ⟨x, hx, rfl⟩ := List.mem_map.mp hm
    have := List.of_mem_filter hx
    rw [clearNew_current]
    exact this
  rw [List.filter_eq_nil_iff.mpr h1, List.filter_eq_self.mpr h2, List.nil_append]

lemma assignRanks_idem : ∀ (i : ℕ) (l : List Movie),
    assignRanks i (assignRanks i l) = assignRanks i l
  | _, [] => rfl
  | i, _ :: rest =>
    congrArg₂ List.cons rfl (assignRanks_idem (i + 1) rest)

lemma map_clearNew_idem (l : List Movie) : (l.map clearNew).map clearNew = l.map clearNew := by
  rw [List.map_map]
  rfl

/-- C2: rank renumbering is idempotent — applying
`sort_and_assign_rankings` to its own output reproduces that output exactly
(same records, same order, and in particular the same `new_ranking` on every
record), because the ranked block is already sorted and gets the same dense
ranks 1..N re-assigned, and the unranked block keeps `new_ranking = None`. -/
theorem c2_renumber_idempotent : ∀ movies : List Movie,
    sort_and_assign_rankings (sort_and_assign_rankings movies) =
      sort_and_assign_rankings movies := by
  intro movies
  conv_lhs => rw [sort_and_assign_rankings]
  rw [filter_output_some, filter_output_none,
    (assignRanks_sorted 1 _ (List.sorted_insertionSort rankLe _)).insertionSort_eq,
    assignRanks_idem, map_clearNew_idem, sort_and_assign_rankings]

/-- C3: rank renumbering strictly preserves the order of current ranks.
Every input record with a numeric current rank reappears in the output with
some assigned new rank, and for any two output records whose current ranks
satisfy `qa < qb` the assigned new ranks satisfy `na < nb`. -/
theorem c3_order_preserved : ∀ movies : List Movie,
    (∀ x ∈ movies, x.current_ranking.isSome = true →
      ∃ n, { x with new_ranking := some n } ∈ sort_and_assign_rankings movies) ∧
    ∀ a b, a ∈ sort_and_assign_rankings movies → b ∈ sort_and_assign_rankings movies →
      ∀ qa qb, a.current_ranking = some qa → b.current_ranking = some qb → qa < qb →
      ∃ na nb, a.new_ranking = some na ∧ b.new_ranking = some nb ∧ na < nb := by
  intro movies
  constructor
  · intro x hx hsome
    have hxf : x ∈ movies.filter (fun m => m.current_ranking.isSome) :=
      List.mem_filter.mpr ⟨hx, hsome⟩
    rw [← List.mem_insertionSort (r := rankLe)] at hxf
    obtain ⟨n, hn⟩ := mem_assignRanks_of_mem 1 _ x hxf
    refine ⟨n, ?_⟩
    unfold sort_and_assign_rankings
    exact List.mem_append_left _ hn
  · intro a b ha hb qa qb hqa hqb hlt
    have hmem : ∀ {m : Movie} {q : ℚ}, m ∈ sort_and_assign_rankings movies →
        m.current_ranking = some q →
        m ∈ assignRanks 1 (List.insertionSort rankLe
          (movies.filter fun m => m.current_ranking.isSome)) := by
      intro m q hm hq
      unfold sort_and_assign_rankings at hm
      rcases List.mem_append.mp hm with h | h
      · exact h
      · obtain ⟨x, hx, rfl⟩ := List.mem_map.mp h
        have hnone := List.of_mem_filter hx
        rw [Option.isNone_iff_eq_none] at hnone
        rw [clearNew_current, hnone] at hq
        cases hq
    have ha2 := hmem ha hqa
    have hb2 := hmem hb hqb
    have hsorted := List.sorted_insertionSort rankLe
      (movies.filter fun m => m.current_ranking.isSome)
    have hkey : rankKey a < rankKey b := by simp [rankKey, hqa, hqb, hlt]
    exact assignRanks_rank_lt _ 1 hsorted a b ha2 hb2 hkey

/-- C3 witness: the order-preservation theorem applied to a concrete two-
record list whose current ranks are 2 and 1. -/
theorem c3_order_preserved_witness :
    ∃ na nb, (Movie.mk "p2" "B" (some 1) (some 1)).new_ranking = some na ∧
      (Movie.mk "p1" "A" (some 2) (some 2)).new_ranking = some nb ∧ na < nb :=
  (c3_order_preserved [⟨"p1", "A", some 2, none⟩, ⟨"p2", "B", some 1, none⟩]).2
    ⟨"p2", "B", some 1, some 1⟩ ⟨"p1", "A", some 2, some 2⟩ (by decide) (by decide)
    1 2 rfl rfl (by norm_num)

end MovieBot
